import Mathlib

/-!
Verification of the core of mfenderov/most-active-cookie.

Go strings are modelled as lists of characters (`Str`), Go errors as the
inductive `GoError` (with `fmt.Errorf("...: %w", err)` wrapping modelled by
error constructors carrying an inner error, and `errors.Is(err,
ErrPastTargetDate)` by `GoError.isPastTargetDate`).  The input file is
modelled as the list of lines produced by `bufio.Scanner` (no trailing
newlines).  The Go map `map[string]int` is modelled as an association list
in insertion order; claims about map-iteration-order independence are
proved by quantifying over permutations of that list.
-/

namespace MostActiveCookie

/-- A Go string, modelled as its list of characters. -/
abbrev Str := List Char

/-- Model of Go `unicode.IsSpace` restricted to the ASCII space characters
(the only ones the repository's data can contain on a scanned line). -/
def isSpaceChar (c : Char) : Bool :=
  c = '\t' || c = '\n' || c = '\x0b' || c = '\x0c' || c = '\r' || c = ' '

/-- Model of Go `strings.TrimSpace`. -/
def trimSpace (s : Str) : Str :=
  ((s.dropWhile isSpaceChar).reverse.dropWhile isSpaceChar).reverse

/-- Model of Go `strings.Split(line, ",")`: split on every comma, keeping
empty fields; the result always has (number of commas + 1) fields. -/
def splitComma : Str → List Str
  | [] => [[]]
  | c :: rest =>
    if c = ',' then [] :: splitComma rest
    else
      match splitComma rest with
      | [] => [[c]]
      | p :: ps => (c :: p) :: ps

/-- Model of Go `unicode.ToLower` on the characters that can occur here
(ASCII letters are mapped to lower case, everything else kept). -/
def toLowerChar (c : Char) : Char :=
  if 'A' ≤ c ∧ c ≤ 'Z' then Char.ofNat (c.toNat + 32) else c

/-- Model of Go `strings.ToLower`. -/
def toLowerStr (s : Str) : Str := s.map toLowerChar

/-- Model of Go byte-wise string comparison `a < b` (lexicographic). -/
def strLt : Str → Str → Bool
  | [], [] => false
  | [], _ :: _ => true
  | _ :: _, [] => false
  | a :: as, b :: bs => if a < b then true else if b < a then false else strLt as bs

/-- Model of Go `a <= b` on strings, as used by `sort.Strings`. -/
def strLe (a b : Str) : Bool := !strLt b a

/-- `cookie.LogEntry` from the source. -/
structure LogEntry where
  cookie : Str
  timestamp : Str
deriving DecidableEq, Repr

/-- The universe of Go `error` values the program can create.  Constructors
with a `GoError` argument model `fmt.Errorf` wrapping with `%w`. -/
inductive GoError where
  | pastTargetDate : GoError
  | timestampTooShort (ts : Str) : GoError
  | invalidCSVFormat (got : Nat) : GoError
  | emptyCookieID : GoError
  | emptyTimestamp : GoError
  | invalidTimestampFormat (ts : Str) : GoError
  | invalidHeader (lineNum : Nat) (header : Str) : GoError
  | lineParseError (lineNum : Nat) (inner : GoError) : GoError
  | processingError (lineNum : Nat) (inner : GoError) : GoError
  | noValidEntries : GoError
  | emptyFilename : GoError
  | emptyTargetDate : GoError
  | invalidTargetDateFormat (got : Str) : GoError
  | invalidTargetDate (inner : GoError) : GoError
  | streamFailed (inner : GoError) : GoError
deriving DecidableEq, Repr

/-- Model of Go `errors.Is(err, ErrPastTargetDate)`: true exactly when the
sentinel `ErrPastTargetDate` is in the `%w` wrap chain. -/
def GoError.isPastTargetDate : GoError → Bool
  | .pastTargetDate => true
  | .lineParseError _ e => e.isPastTargetDate
  | .processingError _ e => e.isPastTargetDate
  | .invalidTargetDate e => e.isPastTargetDate
  | .streamFailed e => e.isPastTargetDate
  | _ => false

/-- `expectedColumns` from src/src/parser/csv.go. -/
def expectedColumns : Nat := 2

/-- `(*CSVParser).parseLine` from src/src/parser/csv.go.  The Go code
checks `len(parts) != expectedColumns` and then indexes `parts[0]` and
`parts[1]`; here the length-2 check is the match on a two-element list. -/
def parseLine (line : Str) : Except GoError LogEntry :=
  match splitComma line with
  | [p0, p1] =>
    if trimSpace p0 = [] then .error .emptyCookieID
    else if trimSpace p1 = [] then .error .emptyTimestamp
    else if (trimSpace p1).length < 10 || !((trimSpace p1).contains 'T') then
      .error (.invalidTimestampFormat (trimSpace p1))
    else .ok ⟨trimSpace p0, trimSpace p1⟩
  | parts => .error (.invalidCSVFormat parts.length)

/-- The literal header the parser expects. -/
def headerLiteral : Str := "cookie,timestamp".toList

/-- `isValidHeader` from src/src/parser/csv.go. -/
def isValidHeader (header : Str) : Bool :=
  trimSpace (toLowerStr header) = headerLiteral

/-- The Go map `map[string]int` modelled as an association list in
insertion order. -/
abbrev CookieCounts := List (Str × Nat)

/-- Model of `cookieCounts[entry.Cookie]++` on the association list. -/
def incr : CookieCounts → Str → CookieCounts
  | [], c => [(c, 1)]
  | (k, v) :: rest, c => if k = c then (k, v + 1) :: rest else (k, v) :: incr rest c

/-- `processLogEntry` from the cookie package (the processor closure; the
map it mutates is passed and returned explicitly). -/
def processLogEntry (targetDate : Str) (cookieCounts : CookieCounts) (entry : LogEntry) :
    Except GoError CookieCounts :=
  let timestamp := entry.timestamp
  if timestamp.length < 10 then .error (.timestampTooShort timestamp)
  else
    let entryDate := timestamp.take 10
    if strLt targetDate entryDate then .error .pastTargetDate
    else if entryDate = targetDate then .ok (incr cookieCounts entry.cookie)
    else .ok cookieCounts

/-- Outcome of `StreamFile`: the final state of the caller's map, the
`entriesProcessed` counter, and the returned error if any (Go mutates the
map in place, so the counts are available to the caller even on error). -/
structure StreamResult where
  counts : CookieCounts
  entriesProcessed : Nat
  err : Option GoError
deriving DecidableEq, Repr

/-- The record-consuming loop of `(*CSVParser).StreamFile`: `lineNum` is
the number of physical lines already consumed (the header included),
`entriesProcessed` and `counts` the loop state.  A processor error that
`errors.Is` `ErrPastTargetDate` breaks out of the loop without an error. -/
def streamLoop (proc : CookieCounts → LogEntry → Except GoError CookieCounts) :
    List Str → Nat → Nat → CookieCounts → StreamResult
  | [], _, entriesProcessed, counts => ⟨counts, entriesProcessed, none⟩
  | l :: rest, lineNum, entriesProcessed, counts =>
    let line := trimSpace l
    if line = [] then streamLoop proc rest (lineNum + 1) entriesProcessed counts
    else
      match parseLine line with
      | .error e => ⟨counts, entriesProcessed, some (.lineParseError (lineNum + 1) e)⟩
      | .ok entry =>
        match proc counts entry with
        | .error e =>
          if e.isPastTargetDate then ⟨counts, entriesProcessed, none⟩
          else ⟨counts, entriesProcessed, some (.processingError (lineNum + 1) e)⟩
        | .ok counts2 => streamLoop proc rest (lineNum + 1) (entriesProcessed + 1) counts2

/-- `(*CSVParser).StreamFile` from src/src/parser/csv.go, on the list of
lines of an already-opened file (an empty list models an empty file: the
header scan fails, no line is consumed, and the final
`entriesProcessed == 0` check fires). -/
def streamFile (proc : CookieCounts → LogEntry → Except GoError CookieCounts)
    (lines : List Str) : StreamResult :=
  match lines with
  | [] => ⟨[], 0, some .noValidEntries⟩
  | header :: rest =>
    if isValidHeader header then
      let r := streamLoop proc rest 1 0 []
      match r.err with
      | some _ => r
      | none =>
        if r.entriesProcessed = 0 then ⟨r.counts, r.entriesProcessed, some .noValidEntries⟩
        else r
    else ⟨[], 0, some (.invalidHeader 1 header)⟩

/-- The max-selection loop of `FindMostActiveCookies`: fold over the map
entries carrying `maxCount` and the slice `mostActiveCookies`. -/
def selectMax : CookieCounts → Nat → List Str → Nat × List Str
  | [], maxCount, acc => (maxCount, acc)
  | (c, count) :: rest, maxCount, acc =>
    if maxCount < count then selectMax rest count [c]
    else if count = maxCount then selectMax rest maxCount (acc ++ [c])
    else selectMax rest maxCount acc

/-- Model of Go `sort.Strings` (ascending lexicographic sort). -/
def sortStrings (l : List Str) : List Str := l.mergeSort strLe

/-- Model of Go `y%4 == 0 && (y%100 != 0 || y%400 == 0)` as used by
`time.Parse` to accept February 29. -/
def isLeapYear (y : Nat) : Bool :=
  y % 4 = 0 && (decide (y % 100 ≠ 0) || y % 400 = 0)

/-- Days in a month, as enforced by Go `time.Parse`'s range check. -/
def daysInMonth (y m : Nat) : Nat :=
  if m = 2 then (if isLeapYear y then 29 else 28)
  else if m = 4 || m = 6 || m = 9 || m = 11 then 30
  else 31

/-- Numeric value of an ASCII digit character. -/
def digitVal (c : Char) : Nat := c.toNat - 48

/-- Model of Go `time.Parse("2006-01-02", s)` succeeding: exactly ten
characters, digits and dashes in the layout's positions, and a
calendar-valid month and day (Go rejects out-of-range months and days,
February 29 only in leap years, and any trailing text). -/
def goParseDate (s : Str) : Bool :=
  match s with
  | [y1, y2, y3, y4, h1, m1, m2, h2, d1, d2] =>
    y1.isDigit && y2.isDigit && y3.isDigit && y4.isDigit &&
    h1 = '-' && h2 = '-' &&
    m1.isDigit && m2.isDigit && d1.isDigit && d2.isDigit &&
    (let y := 1000 * digitVal y1 + 100 * digitVal y2 + 10 * digitVal y3 + digitVal y4
     let m := 10 * digitVal m1 + digitVal m2
     let d := 10 * digitVal d1 + digitVal d2
     decide (1 ≤ m) && decide (m ≤ 12) && decide (1 ≤ d) && decide (d ≤ daysInMonth y m))
  | _ => false

/-- `validateDate` from the cookie package. -/
def validateDate (targetDate : Str) : Except GoError Unit :=
  if targetDate = [] then .error .emptyTargetDate
  else if goParseDate targetDate then .ok ()
  else .error (.invalidTargetDateFormat targetDate)

/-- The tail of `FindMostActiveCookies` after streaming: empty map gives an
empty result, otherwise the max-selection loop followed by `sort.Strings`. -/
def pickWinners (cookieCounts : CookieCounts) : List Str :=
  if cookieCounts.isEmpty then []
  else sortStrings (selectMax cookieCounts 0 []).2

/-- `(*Processor).FindMostActiveCookies` from the cookie package, with the
opened file's lines passed explicitly (file `I/O` is outside the model). -/
def findMostActiveCookies (filename : Str) (fileLines : List Str) (targetDate : Str) :
    Except GoError (List Str) :=
  if filename = [] then .error .emptyFilename
  else
    match validateDate targetDate with
    | .error e => .error (.invalidTargetDate e)
    | .ok _ =>
      let r := streamFile (processLogEntry targetDate) fileLines
      match r.err with
      | some e =>
        if e.isPastTargetDate then .ok (pickWinners r.counts)
        else .error (.streamFailed e)
      | none => .ok (pickWinners r.counts)

/-- The date prefix of a record: the first ten characters of its timestamp. -/
def dateOf (e : LogEntry) : Str := e.timestamp.take 10

/-- The records of the data lines of a file body: blank lines are skipped,
every other line is trimmed and parsed. -/
def rowsOf (body : List Str) : List LogEntry :=
  body.filterMap (fun l => if trimSpace l = [] then none else (parseLine (trimSpace l)).toOption)

/-- A file body is well formed when every non-blank line parses. -/
def wellFormedBody (body : List Str) : Prop :=
  ∀ l ∈ body, trimSpace l ≠ [] → (parseLine (trimSpace l)).isOk = true

/-- The records the streaming loop consumes before the early stop: the
longest prefix whose date prefixes do not exceed the target date. -/
def keptRows (targetDate : Str) (rows : List LogEntry) : List LogEntry :=
  rows.takeWhile (fun e => !strLt targetDate (dateOf e))

/-- One tally step: count a record exactly when its date prefix equals the
target date. -/
def tallyStep (targetDate : Str) (m : CookieCounts) (e : LogEntry) : CookieCounts :=
  if dateOf e = targetDate then incr m e.cookie else m

/-- Number of records of `rows` by cookie `c` whose date prefix equals the
target date (the specification's per-cookie tally). -/
def matchCount (targetDate : Str) (rows : List LogEntry) (c : Str) : Nat :=
  (rows.filter (fun e => decide (dateOf e = targetDate ∧ e.cookie = c))).length

/-- First-match lookup in the association list, defaulting to 0. -/
def countOf : CookieCounts → Str → Nat
  | [], _ => 0
  | (k, v) :: rest, c => if k = c then v else countOf rest c

/-- The largest tally value in the map (0 for the empty map). -/
def maxTally (m : CookieCounts) : Nat := m.foldr (fun p acc => max p.2 acc) 0

/-! ### The lexicographic string order -/

theorem strLt_irrefl (a : Str) : strLt a a = false := by
  induction a with
  | nil => rfl
  | cons c as ih => simp [strLt, ih]

theorem strLt_asymm : ∀ {a b : Str}, strLt a b = true → strLt b a = false
  | [], [], h => by simp [strLt] at h
  | [], _ :: _, _ => by simp [strLt]
  | _ :: _, [], h => by simp [strLt] at h
  | c :: as, d :: bs, h => by
    simp only [strLt] at h ⊢
    rcases lt_trichotomy c d with hcd | hcd | hcd
    · simp [lt_asymm hcd, hcd]
    · subst hcd
      simp only [lt_irrefl, if_false] at h ⊢
      exact strLt_asymm h
    · simp [hcd, lt_asymm hcd] at h

theorem strLt_trans : ∀ {a b c : Str}, strLt a b = true → strLt b c = true → strLt a c = true
  | [], b, c, _, h2 => by
    cases c with
    | nil =>
      cases b with
      | nil => simp [strLt] at h2
      | cons d bs => simp [strLt] at h2
    | cons e cs => simp [strLt]
  | _ :: _, [], _, h1, _ => by simp [strLt] at h1
  | _ :: _, _ :: _, [], _, h2 => by simp [strLt] at h2
  | x :: as, y :: bs, z :: cs, h1, h2 => by
    simp only [strLt] at h1 h2 ⊢
    rcases lt_trichotomy x y with hxy | hxy | hxy
    · rcases lt_trichotomy y z with hyz | hyz | hyz
      · simp [lt_trans hxy hyz]
      · subst hyz; simp [hxy]
      · simp [lt_asymm hyz, hyz] at h2
    · subst hxy
      rcases lt_trichotomy x z with hxz | hxz | hxz
      · simp [hxz]
      · subst hxz
        simp only [lt_irrefl, if_false] at h1 h2 ⊢
        exact strLt_trans h1 h2
      · simp [lt_asymm hxz, hxz] at h2
    · simp [lt_asymm hxy, hxy] at h1

theorem strLt_connected : ∀ {a b : Str}, a ≠ b → strLt a b = true ∨ strLt b a = true
  | [], [], h => absurd rfl h
  | [], _ :: _, _ => Or.inl (by simp [strLt])
  | _ :: _, [], _ => Or.inr (by simp [strLt])
  | x :: as, y :: bs, h => by
    rcases lt_trichotomy x y with hxy | hxy | hxy
    · exact Or.inl (by simp [strLt, hxy])
    · subst hxy
      have has : as ≠ bs := fun he => h (by rw [he])
      rcases strLt_connected has with h' | h'
      · exact Or.inl (by simp [strLt, h'])
      · exact Or.inr (by simp [strLt, h'])
    · exact Or.inr (by simp [strLt, hxy])

theorem strLt_ne {a b : Str} (h : strLt a b = true) : a ≠ b := by
  intro he
  subst he
  simp [strLt_irrefl] at h

theorem strLe_trans {a b c : Str} (h1 : strLe a b = true) (h2 : strLe b c = true) :
    strLe a c = true := by
  simp only [strLe, Bool.not_eq_true'] at h1 h2 ⊢
  cases hca : strLt c a with
  | false => rfl
  | true =>
    exfalso
    by_cases hab : a = b
    · subst hab
      simp [hca] at h2
    · rcases strLt_connected hab with h' | h'
      · have := strLt_trans hca h'
        simp [this] at h2
      · simp [h'] at h1

theorem strLe_total (a b : Str) : (strLe a b || strLe b a) = true := by
  simp only [strLe, Bool.not_eq_true']
  cases hba : strLt b a with
  | false => simp
  | true => simp [strLt_asymm hba]

theorem strLe_antisymm {a b : Str} (h1 : strLe a b = true) (h2 : strLe b a = true) : a = b := by
  simp only [strLe, Bool.not_eq_true'] at h1 h2
  by_contra hab
  rcases strLt_connected hab with h' | h'
  · simp [h'] at h2
  · simp [h'] at h1

theorem strLe_refl (a : Str) : strLe a a = true := by
  simp [strLe, strLt_irrefl]

theorem sortStrings_perm (l : List Str) : (sortStrings l).Perm l :=
  List.mergeSort_perm l strLe

theorem sortStrings_sorted (l : List Str) :
    (sortStrings l).Pairwise (fun a b => strLe a b = true) := by
  unfold sortStrings
  exact List.sorted_mergeSort
    (fun (a b c : Str) (h1 : strLe a b = true) (h2 : strLe b c = true) => strLe_trans h1 h2)
    strLe_total l

theorem sortStrings_mem {l : List Str} {c : Str} : c ∈ sortStrings l ↔ c ∈ l :=
  (sortStrings_perm l).mem_iff

theorem sortStrings_nodup {l : List Str} (h : l.Nodup) : (sortStrings l).Nodup :=
  ((sortStrings_perm l).nodup_iff).mpr h

theorem sortStrings_eq_of_perm {l₁ l₂ : List Str} (h : l₁.Perm l₂) :
    sortStrings l₁ = sortStrings l₂ := by
  haveI : IsAntisymm Str (fun a b => strLe a b = true) := ⟨fun a b => strLe_antisymm⟩
  exact List.eq_of_perm_of_sorted
    (((sortStrings_perm l₁).trans h).trans (sortStrings_perm l₂).symm)
    (sortStrings_sorted l₁) (sortStrings_sorted l₂)

/-! ### The tally map -/

/-- The keys of the association list modelling the map. -/
def keysOf (m : CookieCounts) : List Str := m.map Prod.fst

theorem maxTally_nil : maxTally [] = 0 := rfl

theorem maxTally_cons (k : Str) (v : Nat) (rest : CookieCounts) :
    maxTally ((k, v) :: rest) = max v (maxTally rest) := rfl

theorem keysOf_nil : keysOf [] = [] := rfl

theorem keysOf_cons (p : Str × Nat) (rest : CookieCounts) :
    keysOf (p :: rest) = p.1 :: keysOf rest := rfl

theorem countOf_incr_self : ∀ (m : CookieCounts) (c : Str),
    countOf (incr m c) c = countOf m c + 1
  | [], c => by simp [incr, countOf]
  | (k, v) :: rest, c => by
    by_cases hkc : k = c
    · simp [incr, countOf, hkc]
    · simp only [incr, countOf, if_neg hkc]
      exact countOf_incr_self rest c

theorem countOf_incr_ne : ∀ (m : CookieCounts) {c c' : Str}, c' ≠ c →
    countOf (incr m c) c' = countOf m c'
  | [], c, c', h => by simp [incr, countOf, Ne.symm h]
  | (k, v) :: rest, c, c', h => by
    by_cases hkc : k = c
    · simp [incr, countOf, hkc, Ne.symm h]
    · by_cases hkc' : k = c'
      · simp [incr, countOf, hkc, hkc', h]
      · simp only [incr, countOf, if_neg hkc, if_neg hkc']
        exact countOf_incr_ne rest h

theorem keysOf_incr : ∀ (m : CookieCounts) (c : Str),
    keysOf (incr m c) = if c ∈ keysOf m then keysOf m else keysOf m ++ [c]
  | [], c => by simp [incr, keysOf]
  | (k, v) :: rest, c => by
    by_cases hkc : k = c
    · simp [incr, keysOf, hkc]
    · have hck : ¬(c = k) := fun he => hkc he.symm
      simp only [incr, if_neg hkc, keysOf_cons, keysOf_incr rest c]
      by_cases hmem : c ∈ keysOf rest
      · simp [List.mem_cons, hmem, hck]
      · simp [List.mem_cons, hmem, hck]

theorem keysOf_incr_nodup {m : CookieCounts} (h : (keysOf m).Nodup) (c : Str) :
    (keysOf (incr m c)).Nodup := by
  rw [keysOf_incr]
  by_cases hmem : c ∈ keysOf m
  · simpa [hmem] using h
  · simp only [if_neg hmem]
    simpa [List.nodup_append, hmem] using h

theorem incr_pos {m : CookieCounts} (h : ∀ p ∈ m, 1 ≤ p.2) (c : Str) :
    ∀ p ∈ incr m c, 1 ≤ p.2 := by
  induction m with
  | nil => simp [incr]
  | cons q rest ih =>
    obtain ⟨k, v⟩ := q
    by_cases hkc : k = c
    · intro p hp
      rw [incr, if_pos hkc] at hp
      rcases List.mem_cons.1 hp with hp | hp
      · subst hp; simp
      · exact h p (List.mem_cons_of_mem _ hp)
    · intro p hp
      rw [incr, if_neg hkc] at hp
      rcases List.mem_cons.1 hp with hp | hp
      · subst hp; exact h (k, v) (List.mem_cons_self _ _)
      · exact ih (fun q hq => h q (List.mem_cons_of_mem _ hq)) p hp

theorem countOf_eq_zero_of_not_mem : ∀ {m : CookieCounts} {c : Str},
    c ∉ keysOf m → countOf m c = 0
  | [], c, _ => rfl
  | (k, v) :: rest, c, h => by
    have hkc : ¬(k = c) := fun he => h (by simp [keysOf_cons, he])
    rw [countOf, if_neg hkc]
    exact countOf_eq_zero_of_not_mem (fun hm => h (by simp [keysOf_cons, hm]))

theorem mem_of_countOf_mem_keys : ∀ {m : CookieCounts} {c : Str},
    c ∈ keysOf m → (c, countOf m c) ∈ m
  | [], c, h => by simp [keysOf] at h
  | (k, v) :: rest, c, h => by
    by_cases hkc : k = c
    · subst hkc
      simp [countOf]
    · rw [countOf, if_neg hkc]
      have : c ∈ keysOf rest := by
        rcases List.mem_cons.1 h with h' | h'
        · exact absurd h'.symm hkc
        · exact h'
      exact List.mem_cons_of_mem _ (mem_of_countOf_mem_keys this)

theorem countOf_eq_of_mem : ∀ {m : CookieCounts} {c : Str} {n : Nat},
    (keysOf m).Nodup → (c, n) ∈ m → countOf m c = n
  | [], c, n, _, h => by simp at h
  | (k, v) :: rest, c, n, hnd, hmem => by
    rw [keysOf_cons] at hnd
    have hnd' := List.nodup_cons.1 hnd
    rcases List.mem_cons.1 hmem with h' | h'
    · obtain ⟨hc, hn⟩ := Prod.ext_iff.1 h'
      rw [countOf, if_pos hc.symm]
      exact hn.symm
    · have hck : c ∈ keysOf rest := List.mem_map.2 ⟨(c, n), h', rfl⟩
      have hkc : ¬(k = c) := fun he => hnd'.1 (he ▸ hck)
      rw [countOf, if_neg hkc]
      exact countOf_eq_of_mem hnd'.2 h'

theorem countOf_pos_iff_mem_keys {m : CookieCounts} (hpos : ∀ p ∈ m, 1 ≤ p.2) {c : Str} :
    1 ≤ countOf m c ↔ c ∈ keysOf m := by
  constructor
  · intro h
    by_contra hmem
    rw [countOf_eq_zero_of_not_mem hmem] at h
    omega
  · intro h
    have := hpos _ (mem_of_countOf_mem_keys h)
    exact this

theorem le_maxTally_of_mem : ∀ {m : CookieCounts} {p : Str × Nat}, p ∈ m → p.2 ≤ maxTally m
  | [], p, h => by simp at h
  | (k, v) :: rest, p, h => by
    rw [maxTally_cons]
    rcases List.mem_cons.1 h with h' | h'
    · subst h'; exact le_max_left _ _
    · exact le_trans (le_maxTally_of_mem h') (le_max_right _ _)

theorem countOf_le_maxTally (m : CookieCounts) (c : Str) : countOf m c ≤ maxTally m := by
  by_cases h : c ∈ keysOf m
  · exact le_maxTally_of_mem (mem_of_countOf_mem_keys h)
  · rw [countOf_eq_zero_of_not_mem h]
    omega

theorem maxTally_attained : ∀ {m : CookieCounts}, m ≠ [] → ∃ p ∈ m, p.2 = maxTally m
  | [], h => absurd rfl h
  | (k, v) :: rest, _ => by
    rw [maxTally_cons]
    rcases max_choice v (maxTally rest) with h' | h'
    · exact ⟨(k, v), List.mem_cons_self _ _, h'.symm⟩
    · rcases Decidable.em (rest = []) with hr | hr
      · subst hr
        simp only [maxTally_nil] at h' ⊢
        exact ⟨(k, v), List.mem_cons_self _ _, by omega⟩
      · obtain ⟨p, hp, he⟩ := maxTally_attained hr
        exact ⟨p, List.mem_cons_of_mem _ hp, by rw [he, h']⟩

/-! ### The max-selection loop -/

theorem selectMax_snd_eq : ∀ (m : CookieCounts) (b : Nat) (acc : List Str),
    (selectMax m b acc).2 =
      (if maxTally m ≤ b then acc else []) ++
        (m.filter (fun p => decide (p.2 = max b (maxTally m)))).map Prod.fst
  | [], b, acc => by simp [selectMax, maxTally_nil]
  | (k, v) :: rest, b, acc => by
    rcases Nat.lt_trichotomy b v with hbv | hbv | hbv
    · have e1 : selectMax ((k, v) :: rest) b acc = selectMax rest v [k] := by
        simp [selectMax, hbv]
      have h1 : ¬(max v (maxTally rest) ≤ b) := by omega
      have h2 : max b (max v (maxTally rest)) = max v (maxTally rest) := by omega
      rw [e1, selectMax_snd_eq rest v [k], maxTally_cons, List.filter_cons]
      simp only [h2]
      rw [if_neg h1]
      by_cases hT : maxTally rest ≤ v
      · have h3 : max v (maxTally rest) = v := by omega
        simp only [h3]
        simp [hT]
      · have h3 : ¬(v = max v (maxTally rest)) := by omega
        simp [hT, h3]
    · subst hbv
      have e1 : selectMax ((k, b) :: rest) b acc = selectMax rest b (acc ++ [k]) := by
        simp [selectMax]
      have h2 : max b (max b (maxTally rest)) = max b (maxTally rest) := by omega
      rw [e1, selectMax_snd_eq rest b (acc ++ [k]), maxTally_cons, List.filter_cons]
      simp only [h2]
      by_cases hT : maxTally rest ≤ b
      · have h4 : max b (maxTally rest) = b := by omega
        simp only [h4]
        simp [hT, List.append_assoc]
      · have h3 : ¬(max b (maxTally rest) ≤ b) := by omega
        have h4 : ¬(b = max b (maxTally rest)) := by omega
        simp [hT, h3, h4]
    · have hnb : ¬(b < v) := by omega
      have hne : ¬(v = b) := by omega
      have e1 : selectMax ((k, v) :: rest) b acc = selectMax rest b acc := by
        simp [selectMax, hnb, hne]
      have h2 : max b (max v (maxTally rest)) = max b (maxTally rest) := by omega
      have h3 : (max v (maxTally rest) ≤ b) ↔ (maxTally rest ≤ b) := by omega
      have h4 : ¬(v = max b (maxTally rest)) := by omega
      rw [e1, selectMax_snd_eq rest b acc, maxTally_cons, List.filter_cons]
      simp only [h2]
      simp [h3, h4]

theorem selectMax_zero (m : CookieCounts) :
    (selectMax m 0 []).2 = (m.filter (fun p => decide (p.2 = maxTally m))).map Prod.fst := by
  rw [selectMax_snd_eq m 0 []]
  simp [Nat.zero_max]

theorem selectMax_zero_mem (m : CookieCounts) (c : Str) :
    c ∈ (selectMax m 0 []).2 ↔ (c, maxTally m) ∈ m := by
  rw [selectMax_zero]
  simp only [List.mem_map, List.mem_filter, decide_eq_true_eq]
  constructor
  · rintro ⟨p, ⟨hp, he⟩, rfl⟩
    rwa [← he, Prod.mk.eta]
  · intro h
    exact ⟨(c, maxTally m), ⟨h, rfl⟩, rfl⟩

theorem selectMax_zero_nodup {m : CookieCounts} (hnd : (keysOf m).Nodup) :
    (selectMax m 0 []).2.Nodup := by
  rw [selectMax_zero]
  simp only [keysOf] at hnd
  exact List.Nodup.sublist ((List.filter_sublist m).map Prod.fst) hnd

theorem mem_max_iff_countOf {m : CookieCounts} (hnd : (keysOf m).Nodup)
    (hpos : ∀ p ∈ m, 1 ≤ p.2) (c : Str) :
    (c, maxTally m) ∈ m ↔ (1 ≤ countOf m c ∧ ∀ c', countOf m c' ≤ countOf m c) := by
  constructor
  · intro h
    have hc := countOf_eq_of_mem hnd h
    refine ⟨by rw [hc]; exact hpos _ h, fun c' => ?_⟩
    rw [hc]
    exact countOf_le_maxTally m c'
  · rintro ⟨h1, h2⟩
    have hck : c ∈ keysOf m := (countOf_pos_iff_mem_keys hpos).1 h1
    have hmem := mem_of_countOf_mem_keys hck
    have hle : countOf m c ≤ maxTally m := countOf_le_maxTally m c
    have hne : m ≠ [] := by rintro rfl; simp [keysOf] at hck
    obtain ⟨p, hp, hpe⟩ := maxTally_attained hne
    have hcp : countOf m p.1 = p.2 := countOf_eq_of_mem hnd (by simpa using hp)
    have hge : maxTally m ≤ countOf m c := by
      rw [← hpe, ← hcp]
      exact h2 p.1
    have : countOf m c = maxTally m := le_antisymm hle hge
    rwa [this] at hmem

/-! ### Folding the tally over the consumed records -/

theorem matchCount_nil (t c : Str) : matchCount t [] c = 0 := rfl

theorem matchCount_cons (t : Str) (e : LogEntry) (rows : List LogEntry) (c : Str) :
    matchCount t (e :: rows) c =
      (if dateOf e = t ∧ e.cookie = c then 1 else 0) + matchCount t rows c := by
  by_cases h : dateOf e = t ∧ e.cookie = c
  · simp [matchCount, List.filter_cons, h, Nat.add_comm]
  · simp [matchCount, List.filter_cons, h]

theorem countOf_foldl_tallyStep : ∀ (rows : List LogEntry) (t : Str) (m : CookieCounts)
    (c : Str), countOf (List.foldl (tallyStep t) m rows) c = countOf m c + matchCount t rows c
  | [], t, m, c => by simp [matchCount]
  | e :: rows, t, m, c => by
    rw [List.foldl_cons, countOf_foldl_tallyStep rows, matchCount_cons]
    unfold tallyStep
    by_cases hd : dateOf e = t
    · by_cases hc : e.cookie = c
      · subst hc
        rw [if_pos hd, countOf_incr_self, if_pos ⟨hd, rfl⟩]
        omega
      · rw [if_pos hd, countOf_incr_ne _ (fun he => hc he.symm),
          if_neg (fun hx => hc hx.2)]
        omega
    · rw [if_neg hd, if_neg (fun hx => hd hx.1)]
      omega

theorem foldl_tallyStep_keys_nodup : ∀ (rows : List LogEntry) (t : Str) (m : CookieCounts),
    (keysOf m).Nodup → (keysOf (List.foldl (tallyStep t) m rows)).Nodup
  | [], _, _, h => h
  | e :: rows, t, m, h => by
    rw [List.foldl_cons]
    apply foldl_tallyStep_keys_nodup
    unfold tallyStep
    by_cases hd : dateOf e = t
    · rw [if_pos hd]
      exact keysOf_incr_nodup h _
    · rwa [if_neg hd]

theorem foldl_tallyStep_pos : ∀ (rows : List LogEntry) (t : Str) (m : CookieCounts),
    (∀ p ∈ m, 1 ≤ p.2) → ∀ p ∈ List.foldl (tallyStep t) m rows, 1 ≤ p.2
  | [], _, _, h => h
  | e :: rows, t, m, h => by
    rw [List.foldl_cons]
    apply foldl_tallyStep_pos
    unfold tallyStep
    by_cases hd : dateOf e = t
    · rw [if_pos hd]
      exact incr_pos h _
    · rwa [if_neg hd]

/-! ### The line parser -/

/-- The failure condition of the line parser, as the specification words
it: wrong field count, empty trimmed cookie, empty trimmed timestamp, or a
trimmed timestamp shorter than 10 characters or without a literal T. -/
def lineBad (line : Str) : Bool :=
  match splitComma line with
  | [p0, p1] =>
    decide (trimSpace p0 = []) || decide (trimSpace p1 = []) ||
      decide ((trimSpace p1).length < 10) || !((trimSpace p1).contains 'T')
  | _ => true

theorem parseLine_cases (line : Str) :
    (lineBad line = true ∧ ∃ err, parseLine line = .error err) ∨
    (lineBad line = false ∧ ∃ p0 p1, splitComma line = [p0, p1] ∧
      parseLine line = .ok ⟨trimSpace p0, trimSpace p1⟩) := by
  rcases hs : splitComma line with _ | ⟨p0, _ | ⟨p1, _ | ⟨p2, rest⟩⟩⟩
  · exact Or.inl ⟨by simp [lineBad, hs], .invalidCSVFormat 0, by simp [parseLine, hs]⟩
  · exact Or.inl ⟨by simp [lineBad, hs], .invalidCSVFormat 1, by simp [parseLine, hs]⟩
  · by_cases h2 : trimSpace p0 = []
    · exact Or.inl ⟨by simp [lineBad, hs, h2], .emptyCookieID, by simp [parseLine, hs, h2]⟩
    · by_cases h3 : trimSpace p1 = []
      · exact Or.inl ⟨by simp [lineBad, hs, h2, h3], .emptyTimestamp,
          by simp [parseLine, hs, h2, h3]⟩
      · by_cases h4 : (trimSpace p1).length < 10
        · exact Or.inl ⟨by simp [lineBad, hs, h2, h3, h4], .invalidTimestampFormat (trimSpace p1),
            by simp [parseLine, hs, h2, h3, h4]⟩
        · by_cases h5 : (trimSpace p1).contains 'T' = true
          · have h5' : 'T' ∈ trimSpace p1 := by simpa using h5
            exact Or.inr ⟨by simp [lineBad, hs, h2, h3, h4, h5'], p0, p1, rfl,
              by simp [parseLine, hs, h2, h3, h4, h5']⟩
          · have h5' : 'T' ∉ trimSpace p1 := by simpa using h5
            exact Or.inl ⟨by simp [lineBad, hs, h2, h3, h4, h5'],
              .invalidTimestampFormat (trimSpace p1), by simp [parseLine, hs, h2, h3, h4, h5']⟩
  · exact Or.inl ⟨by simp [lineBad, hs], .invalidCSVFormat (p0 :: p1 :: p2 :: rest).length,
      by simp [parseLine, hs]⟩

theorem parseLine_isOk_iff (line : Str) :
    (parseLine line).isOk = true ↔ lineBad line = false := by
  rcases parseLine_cases line with ⟨hb, e, he⟩ | ⟨hb, p0, p1, hs, he⟩
  · simp [he, hb, Except.isOk, Except.toBool]
  · simp [he, hb, Except.isOk, Except.toBool]

theorem parseLine_ok_val {line : Str} {e : LogEntry} (h : parseLine line = .ok e) :
    ∃ p0 p1, splitComma line = [p0, p1] ∧ e = ⟨trimSpace p0, trimSpace p1⟩ := by
  rcases parseLine_cases line with ⟨_, e', he⟩ | ⟨_, p0, p1, hs, he⟩
  · rw [he] at h
    cases h
  · rw [he] at h
    cases h
    exact ⟨p0, p1, hs, rfl⟩

theorem parseLine_ok_timestamp_length {line : Str} {e : LogEntry}
    (h : parseLine line = .ok e) : 10 ≤ e.timestamp.length := by
  rcases parseLine_cases line with ⟨_, e', he⟩ | ⟨hb, p0, p1, hs, he⟩
  · rw [he] at h
    cases h
  · rw [he] at h
    cases h
    simp only [lineBad, hs, Bool.or_eq_false_iff, decide_eq_false_iff_not, Nat.not_lt] at hb
    exact hb.1.2

theorem parseLine_error_not_past {line : Str} {e : GoError}
    (h : parseLine line = .error e) : e.isPastTargetDate = false := by
  unfold parseLine at h
  split at h
  · split at h
    · cases h
      rfl
    · split at h
      · cases h
        rfl
      · split at h
        · cases h
          rfl
        · cases h
  · cases h
    rfl

theorem exists_ok_of_isOk {l : Str} (h : (parseLine l).isOk = true) :
    ∃ e, parseLine l = .ok e := by
  cases hp : parseLine l with
  | error e =>
    rw [hp] at h
    simp [Except.isOk, Except.toBool] at h
  | ok e => exact ⟨e, rfl⟩

/-! ### The record-consuming loop -/

theorem rowsOf_nil : rowsOf [] = [] := rfl

theorem rowsOf_cons_blank {l : Str} (h : trimSpace l = []) (body : List Str) :
    rowsOf (l :: body) = rowsOf body := by
  simp [rowsOf, h]

theorem rowsOf_cons_entry {l : Str} {e : LogEntry} (hne : trimSpace l ≠ [])
    (h : parseLine (trimSpace l) = .ok e) (body : List Str) :
    rowsOf (l :: body) = e :: rowsOf body := by
  simp [rowsOf, hne, h, Except.toOption]

theorem processLogEntry_ok {t : Str} {m : CookieCounts} {ent : LogEntry}
    (hlen : 10 ≤ ent.timestamp.length) (hnp : strLt t (dateOf ent) = false) :
    processLogEntry t m ent = .ok (tallyStep t m ent) := by
  have hnl : ¬(ent.timestamp.length < 10) := by omega
  have hc : ¬(strLt t (ent.timestamp.take 10) = true) := by
    rw [show ent.timestamp.take 10 = dateOf ent from rfl, hnp]
    simp
  simp only [processLogEntry, tallyStep, dateOf]
  rw [if_neg hnl, if_neg hc]
  by_cases hd : ent.timestamp.take 10 = t
  · rw [if_pos hd, if_pos hd]
  · rw [if_neg hd, if_neg hd]

theorem processLogEntry_past {t : Str} {m : CookieCounts} {ent : LogEntry}
    (hlen : 10 ≤ ent.timestamp.length) (hp : strLt t (dateOf ent) = true) :
    processLogEntry t m ent = .error .pastTargetDate := by
  have hnl : ¬(ent.timestamp.length < 10) := by omega
  have hc : strLt t (ent.timestamp.take 10) = true := by
    rw [show ent.timestamp.take 10 = dateOf ent from rfl, hp]
  simp only [processLogEntry]
  rw [if_neg hnl, if_pos hc]

theorem streamLoop_eq : ∀ (body : List Str) (t : Str) (ln n : Nat) (m : CookieCounts),
    wellFormedBody body →
    streamLoop (processLogEntry t) body ln n m =
      ⟨List.foldl (tallyStep t) m (keptRows t (rowsOf body)),
       n + (keptRows t (rowsOf body)).length, none⟩
  | [], t, ln, n, m, _ => by
    simp [streamLoop, rowsOf, keptRows]
  | l :: body, t, ln, n, m, hwf => by
    have hwf' : wellFormedBody body := fun x hx => hwf x (List.mem_cons_of_mem _ hx)
    by_cases hbl : trimSpace l = []
    · rw [streamLoop, rowsOf_cons_blank hbl]
      simp only [hbl, if_pos rfl]
      exact streamLoop_eq body t (ln + 1) n m hwf'
    · obtain ⟨e, he⟩ := exists_ok_of_isOk (hwf l (List.mem_cons_self _ _) hbl)
      rw [streamLoop]
      simp only [if_neg hbl, he]
      rw [rowsOf_cons_entry hbl he]
      have hlen := parseLine_ok_timestamp_length he
      by_cases hp : strLt t (dateOf e) = true
      · rw [processLogEntry_past hlen hp]
        have : GoError.isPastTargetDate .pastTargetDate = true := rfl
        simp only [this, if_pos rfl, keptRows, List.takeWhile_cons, hp]
        simp
      · have hnp : strLt t (dateOf e) = false := by
          cases hx : strLt t (dateOf e) with
          | true => exact absurd hx hp
          | false => rfl
        simp only [processLogEntry_ok hlen hnp]
        rw [streamLoop_eq body t (ln + 1) (n + 1) (tallyStep t m e) hwf']
        simp [keptRows, List.takeWhile_cons, hnp, List.foldl_cons]
        omega

/-! ### Sorted input: records after the early stop never match -/

theorem strLt_of_lt_of_le {a b c : Str} (h1 : strLt a b = true) (h2 : strLe b c = true) :
    strLt a c = true := by
  simp only [strLe, Bool.not_eq_true'] at h2
  by_cases hac : a = c
  · subst hac
    rw [h1] at h2
    simp at h2
  · rcases strLt_connected hac with h' | h'
    · exact h'
    · have := strLt_trans h' h1
      rw [this] at h2
      simp at h2

theorem dropWhile_past {t : Str} : ∀ {rows : List LogEntry},
    rows.Pairwise (fun a b => strLe (dateOf a) (dateOf b) = true) →
    ∀ x ∈ rows.dropWhile (fun e => !strLt t (dateOf e)), strLt t (dateOf x) = true
  | [], _ => by simp
  | r :: rows, hp => by
    rcases List.pairwise_cons.1 hp with ⟨hr1, hp'⟩
    by_cases hr : strLt t (dateOf r) = true
    · rw [List.dropWhile_cons, if_neg (by simp [hr])]
      intro x hx
      rcases List.mem_cons.1 hx with rfl | hx'
      · exact hr
      · exact strLt_of_lt_of_le hr (hr1 x hx')
    · rw [Bool.not_eq_true] at hr
      rw [List.dropWhile_cons, if_pos (by simp [hr])]
      exact dropWhile_past hp'

theorem matchCount_keptRows {t : Str} {rows : List LogEntry}
    (hs : rows.Pairwise (fun a b => strLe (dateOf a) (dateOf b) = true)) (c : Str) :
    matchCount t (keptRows t rows) c = matchCount t rows c := by
  have hsplit := List.takeWhile_append_dropWhile (fun e => !strLt t (dateOf e)) rows
  conv_rhs => rw [← hsplit]
  unfold matchCount keptRows
  rw [List.filter_append, List.length_append]
  have hz : (List.filter (fun e => decide (dateOf e = t ∧ e.cookie = c))
      (rows.dropWhile (fun e => !strLt t (dateOf e)))).length = 0 := by
    rw [List.length_eq_zero, List.filter_eq_nil_iff]
    intro x hx
    have hlt := dropWhile_past hs x hx
    simp only [decide_eq_true_eq, not_and]
    intro hd
    rw [hd, strLt_irrefl] at hlt
    simp at hlt
  omega

theorem keptRows_length_pos {t : Str} {r : LogEntry} {rs : List LogEntry}
    (hs : (r :: rs).Pairwise (fun a b => strLe (dateOf a) (dateOf b) = true))
    (hex : ∃ e ∈ r :: rs, strLe (dateOf e) t = true) :
    1 ≤ (keptRows t (r :: rs)).length := by
  obtain ⟨e, he, hle⟩ := hex
  have hr : strLe (dateOf r) t = true := by
    rcases List.mem_cons.1 he with rfl | he'
    · exact hle
    · exact strLe_trans ((List.pairwise_cons.1 hs).1 e he') hle
  unfold keptRows
  rw [List.takeWhile_cons, if_pos (show (!strLt t (dateOf r)) = true from hr)]
  simp

/-! ### StreamFile on well-formed input, and the surfaced errors -/

theorem streamFile_wf {hd : Str} {body : List Str} {t : Str}
    (hh : isValidHeader hd = true) (hwf : wellFormedBody body) :
    streamFile (processLogEntry t) (hd :: body) =
      if (keptRows t (rowsOf body)).length = 0 then
        ⟨List.foldl (tallyStep t) [] (keptRows t (rowsOf body)), 0, some .noValidEntries⟩
      else
        ⟨List.foldl (tallyStep t) [] (keptRows t (rowsOf body)),
          (keptRows t (rowsOf body)).length, none⟩ := by
  simp only [streamFile, if_pos hh, streamLoop_eq body t 1 0 [] hwf]
  by_cases h0 : (keptRows t (rowsOf body)).length = 0
  · rw [if_pos h0]
    simp [h0]
  · rw [if_neg h0]
    simp [h0]

theorem streamLoop_err_not_past :
    ∀ (proc : CookieCounts → LogEntry → Except GoError CookieCounts) (body : List Str)
      (ln n : Nat) (m : CookieCounts) {e : GoError},
      (streamLoop proc body ln n m).err = some e → e.isPastTargetDate = false
  | proc, [], ln, n, m, e, h => by simp [streamLoop] at h
  | proc, l :: body, ln, n, m, e, h => by
    rw [streamLoop] at h
    by_cases hbl : trimSpace l = []
    · rw [if_pos hbl] at h
      exact streamLoop_err_not_past proc body _ _ _ h
    · rw [if_neg hbl] at h
      cases hp : parseLine (trimSpace l) with
      | error pe =>
        rw [hp] at h
        simp only at h
        cases h
        simp only [GoError.isPastTargetDate]
        exact parseLine_error_not_past hp
      | ok entry =>
        rw [hp] at h
        simp only at h
        cases hproc : proc m entry with
        | error pe2 =>
          rw [hproc] at h
          simp only at h
          by_cases hpast : pe2.isPastTargetDate = true
          · rw [if_pos hpast] at h
            simp at h
          · rw [if_neg hpast] at h
            simp only at h
            cases h
            simp only [GoError.isPastTargetDate]
            rw [Bool.not_eq_true] at hpast
            exact hpast
        | ok m2 =>
          rw [hproc] at h
          simp only at h
          exact streamLoop_err_not_past proc body _ _ _ h

theorem streamFile_err_not_past (proc : CookieCounts → LogEntry → Except GoError CookieCounts)
    (lines : List Str) {e : GoError}
    (h : (streamFile proc lines).err = some e) : e.isPastTargetDate = false := by
  cases lines with
  | nil =>
    simp only [streamFile] at h
    cases h
    rfl
  | cons hd body =>
    simp only [streamFile] at h
    by_cases hh : isValidHeader hd = true
    · rw [if_pos hh] at h
      cases herr : (streamLoop proc body 1 0 []).err with
      | some e2 =>
        rw [herr] at h
        simp only at h
        rw [herr] at h
        cases h
        exact streamLoop_err_not_past proc body 1 0 [] herr
      | none =>
        rw [herr] at h
        simp only at h
        by_cases h0 : (streamLoop proc body 1 0 []).entriesProcessed = 0
        · rw [if_pos h0] at h
          cases h
          rfl
        · rw [if_neg h0] at h
          rw [herr] at h
          cases h
    · rw [if_neg hh] at h
      cases h
      rfl

theorem streamLoop_append_past :
    ∀ (body extra : List Str) (t : Str) (ln n : Nat) (m : CookieCounts),
      wellFormedBody body →
      (∃ e ∈ rowsOf body, strLt t (dateOf e) = true) →
      streamLoop (processLogEntry t) (body ++ extra) ln n m =
        streamLoop (processLogEntry t) body ln n m
  | [], extra, t, ln, n, m, _, hex => by
    rw [rowsOf_nil] at hex
    simp at hex
  | l :: body, extra, t, ln, n, m, hwf, hex => by
    have hwf' : wellFormedBody body := fun x hx => hwf x (List.mem_cons_of_mem _ hx)
    rw [List.cons_append]
    by_cases hbl : trimSpace l = []
    · rw [rowsOf_cons_blank hbl] at hex
      simp only [streamLoop, if_pos hbl]
      exact streamLoop_append_past body extra t (ln + 1) n m hwf' hex
    · obtain ⟨e, he⟩ := exists_ok_of_isOk (hwf l (List.mem_cons_self _ _) hbl)
      have hlen := parseLine_ok_timestamp_length he
      rw [rowsOf_cons_entry hbl he] at hex
      simp only [streamLoop, if_neg hbl, he]
      by_cases hp : strLt t (dateOf e) = true
      · rw [processLogEntry_past hlen hp]
      · rw [Bool.not_eq_true] at hp
        rw [processLogEntry_ok hlen hp]
        simp only
        apply streamLoop_append_past body extra t (ln + 1) (n + 1) (tallyStep t m e) hwf'
        obtain ⟨x, hx, hxp⟩ := hex
        rcases List.mem_cons.1 hx with rfl | hx'
        · rw [hxp] at hp
          cases hp
        · exact ⟨x, hx', hxp⟩

theorem streamLoop_parse_error :
    ∀ (pre : List Str) (bad : Str) (post : List Str) (t : Str) (ln n : Nat)
      (m : CookieCounts) {err : GoError},
      (∀ l ∈ pre, trimSpace l = [] ∨ ∃ ent, parseLine (trimSpace l) = .ok ent ∧
          strLt t (dateOf ent) = false) →
      trimSpace bad ≠ [] → parseLine (trimSpace bad) = .error err →
      (streamLoop (processLogEntry t) (pre ++ bad :: post) ln n m).err =
        some (.lineParseError (ln + pre.length + 1) err)
  | [], bad, post, t, ln, n, m, err, _, hnb, hperr => by
    simp only [List.nil_append, streamLoop, if_neg hnb, hperr, List.length_nil]
  | l :: pre, bad, post, t, ln, n, m, err, hpre, hnb, hperr => by
    have hpre' : ∀ x ∈ pre, trimSpace x = [] ∨ ∃ ent, parseLine (trimSpace x) = .ok ent ∧
        strLt t (dateOf ent) = false :=
      fun x hx => hpre x (List.mem_cons_of_mem _ hx)
    have harith : ln + 1 + pre.length + 1 = ln + (pre.length + 1) + 1 := by omega
    rcases hpre l (List.mem_cons_self _ _) with hbl | ⟨ent, hent, hnp⟩
    · rw [List.cons_append]
      simp only [streamLoop, if_pos hbl]
      rw [streamLoop_parse_error pre bad post t (ln + 1) n m hpre' hnb hperr,
        List.length_cons, harith]
    · have hbl : trimSpace l ≠ [] := by
        intro h0
        rw [h0] at hent
        simp [parseLine, splitComma] at hent
      have hlen := parseLine_ok_timestamp_length hent
      rw [List.cons_append]
      simp only [streamLoop, if_neg hbl, hent, processLogEntry_ok hlen hnp]
      rw [streamLoop_parse_error pre bad post t (ln + 1) (n + 1) (tallyStep t m ent)
        hpre' hnb hperr, List.length_cons, harith]

/-! ### The winners of a run -/

theorem countOf_tally (t : Str) (kept : List LogEntry) (c : Str) :
    countOf (List.foldl (tallyStep t) [] kept) c = matchCount t kept c := by
  rw [countOf_foldl_tallyStep kept t [] c]
  simp [countOf]

theorem tally_keys_nodup (t : Str) (kept : List LogEntry) :
    (keysOf (List.foldl (tallyStep t) [] kept)).Nodup :=
  foldl_tallyStep_keys_nodup kept t [] (by simp [keysOf])

theorem tally_pos (t : Str) (kept : List LogEntry) :
    ∀ p ∈ List.foldl (tallyStep t) [] kept, 1 ≤ p.2 :=
  foldl_tallyStep_pos kept t [] (by simp)

theorem pickWinners_mem (t : Str) (kept : List LogEntry) (c : Str) :
    c ∈ pickWinners (List.foldl (tallyStep t) [] kept) ↔
      (1 ≤ matchCount t kept c ∧ ∀ c2, matchCount t kept c2 ≤ matchCount t kept c) := by
  by_cases hT : List.foldl (tallyStep t) [] kept = []
  · rw [pickWinners, if_pos (by simp [hT])]
    have h0 : matchCount t kept c = 0 := by
      rw [← countOf_tally t kept c, hT]
      rfl
    simp [h0]
  · rw [pickWinners, if_neg (by simp [hT])]
    rw [sortStrings_mem, selectMax_zero_mem,
      mem_max_iff_countOf (tally_keys_nodup t kept) (tally_pos t kept)]
    simp only [countOf_tally]

theorem pickWinners_sorted (m : CookieCounts) :
    (pickWinners m).Pairwise (fun a b => strLe a b = true) := by
  unfold pickWinners
  by_cases he : m.isEmpty = true
  · rw [if_pos he]
    simp
  · rw [if_neg he]
    exact sortStrings_sorted _

theorem pickWinners_nodup {m : CookieCounts} (hnd : (keysOf m).Nodup) :
    (pickWinners m).Nodup := by
  unfold pickWinners
  by_cases he : m.isEmpty = true
  · rw [if_pos he]
    simp
  · rw [if_neg he]
    exact sortStrings_nodup (selectMax_zero_nodup hnd)

theorem foldl_tallyStep_no_match {t : Str} : ∀ {kept : List LogEntry} (m : CookieCounts),
    (∀ e ∈ kept, dateOf e ≠ t) → List.foldl (tallyStep t) m kept = m
  | [], m, _ => rfl
  | e :: kept, m, h => by
    rw [List.foldl_cons]
    have hstep : tallyStep t m e = m := by
      unfold tallyStep
      rw [if_neg (h e (List.mem_cons_self _ _))]
    rw [hstep]
    exact foldl_tallyStep_no_match m fun x hx => h x (List.mem_cons_of_mem _ hx)

theorem keptRows_pos {t : Str} {rows : List LogEntry}
    (hs : rows.Pairwise (fun a b => strLe (dateOf a) (dateOf b) = true))
    (hex : ∃ e ∈ rows, strLe (dateOf e) t = true) :
    1 ≤ (keptRows t rows).length := by
  cases rows with
  | nil =>
    obtain ⟨e, he, _⟩ := hex
    simp at he
  | cons r rs => exact keptRows_length_pos hs hex

theorem find_wf {filename hd : Str} {body : List Str} {t : Str}
    (hfn : filename ≠ []) (hhd : isValidHeader hd = true) (hwf : wellFormedBody body)
    (hdate : validateDate t = .ok ())
    (hpos : 1 ≤ (keptRows t (rowsOf body)).length) :
    findMostActiveCookies filename (hd :: body) t =
      .ok (pickWinners (List.foldl (tallyStep t) [] (keptRows t (rowsOf body)))) := by
  unfold findMostActiveCookies
  rw [if_neg hfn, hdate]
  simp only [streamFile_wf hhd hwf]
  rw [if_neg (by omega)]

theorem keptRows_len_zero_iff (t : Str) (rows : List LogEntry) :
    (keptRows t rows).length = 0 ↔ ∀ e ∈ rows.take 1, strLt t (dateOf e) = true := by
  cases rows with
  | nil => simp [keptRows]
  | cons r rs =>
    rw [keptRows, List.takeWhile_cons]
    by_cases hp : strLt t (dateOf r) = true
    · simp [hp]
    · rw [Bool.not_eq_true] at hp
      simp [hp]

/-! ### The claims -/

instance (body : List Str) : Decidable (wellFormedBody body) := by
  unfold wellFormedBody
  exact inferInstance

/-- C10: an empty filename makes FindMostActiveCookies fail immediately
with the empty-filename error, for every target date (valid or not) and
every file content — so the check precedes date validation and any read. -/
theorem claim10_theorem (t : Str) (fileLines : List Str) :
    findMostActiveCookies [] fileLines t = .error .emptyFilename := rfl

/-- C5: parseLine fails exactly when the comma split does not give two
fields, a trimmed field is empty, or the trimmed timestamp is shorter than
ten characters or lacks a literal T; on success it returns the two trimmed
fields unchanged. -/
theorem claim5_theorem (line : Str) :
    ((parseLine line).isOk = true ↔ lineBad line = false) ∧
    (∀ e : LogEntry, parseLine line = .ok e →
      ∃ p0 p1, splitComma line = [p0, p1] ∧
        e.cookie = trimSpace p0 ∧ e.timestamp = trimSpace p1) := by
  refine ⟨parseLine_isOk_iff line, fun e he => ?_⟩
  obtain ⟨p0, p1, hs, hv⟩ := parseLine_ok_val he
  exact ⟨p0, p1, hs, by rw [hv], by rw [hv]⟩

theorem claim5_witness :
    ∃ p0 p1, splitComma (" A , 2018-12-09T14:19:00+00:00".toList) = [p0, p1] ∧
      (LogEntry.mk ("A".toList) ("2018-12-09T14:19:00+00:00".toList)).cookie = trimSpace p0 ∧
      (LogEntry.mk ("A".toList) ("2018-12-09T14:19:00+00:00".toList)).timestamp = trimSpace p1 :=
  (claim5_theorem (" A , 2018-12-09T14:19:00+00:00".toList)).2
    (LogEntry.mk ("A".toList) ("2018-12-09T14:19:00+00:00".toList)) (by rfl)

/-- C6: an empty or non-calendar target date makes FindMostActiveCookies
(given a non-empty filename) fail with the invalid-target-date error, and
the outcome is the same for every file content — no line is consumed. -/
theorem claim6_theorem (filename t : Str) (hfn : filename ≠ [])
    (hbad : t = [] ∨ goParseDate t = false) :
    ∀ fileLines : List Str, ∃ e, findMostActiveCookies filename fileLines t =
      .error (.invalidTargetDate e) := by
  intro fileLines
  unfold findMostActiveCookies
  rw [if_neg hfn]
  by_cases hempty : t = []
  · exact ⟨.emptyTargetDate, by simp [validateDate, hempty]⟩
  · rcases hbad with rfl | hb
    · exact absurd rfl hempty
    · exact ⟨.invalidTargetDateFormat t, by simp [validateDate, hempty, hb]⟩

theorem claim6_witness :
    ("log.csv".toList ≠ ([] : Str)) ∧ goParseDate ("2018-13-40".toList) = false ∧
    ∃ e, findMostActiveCookies ("log.csv".toList) [headerLiteral] ("2018-13-40".toList) =
      .error (.invalidTargetDate e) :=
  ⟨by decide, by decide,
    claim6_theorem ("log.csv".toList) ("2018-13-40".toList) (by decide)
      (Or.inr (by decide)) [headerLiteral]⟩

/-- C7: a first line that does not equal cookie,timestamp after trimming
and case folding makes the stream fail with the header error while the
tally is still empty and no entry was processed, and the whole run fails. -/
theorem claim7_theorem (filename hd : Str) (body : List Str) (t : Str)
    (hbad : isValidHeader hd = false) :
    streamFile (processLogEntry t) (hd :: body) = ⟨[], 0, some (.invalidHeader 1 hd)⟩ ∧
    (filename ≠ [] → validateDate t = .ok () →
      findMostActiveCookies filename (hd :: body) t =
        .error (.streamFailed (.invalidHeader 1 hd))) := by
  have hsf : streamFile (processLogEntry t) (hd :: body) =
      ⟨[], 0, some (.invalidHeader 1 hd)⟩ := by
    simp only [streamFile]
    rw [if_neg (by simp [hbad])]
  refine ⟨hsf, fun hfn hdate => ?_⟩
  unfold findMostActiveCookies
  rw [if_neg hfn, hdate]
  simp only [hsf]
  simp [GoError.isPastTargetDate]

theorem claim7_witness :
    streamFile (processLogEntry ("2018-12-09".toList))
      ["Cookie;Timestamp".toList, "A,2018-12-09T14:19:00+00:00".toList] =
      ⟨[], 0, some (.invalidHeader 1 ("Cookie;Timestamp".toList))⟩ ∧
    findMostActiveCookies ("log.csv".toList)
      ["Cookie;Timestamp".toList, "A,2018-12-09T14:19:00+00:00".toList]
      ("2018-12-09".toList) =
      .error (.streamFailed (.invalidHeader 1 ("Cookie;Timestamp".toList))) := by
  have h := claim7_theorem ("log.csv".toList) ("Cookie;Timestamp".toList)
    ["A,2018-12-09T14:19:00+00:00".toList] ("2018-12-09".toList) (by decide)
  exact ⟨h.1, h.2 (by decide) (by rfl)⟩

/-- C1 (amended): on well-formed input with non-decreasing date prefixes, a
valid target date, and at least one data row at or before the target date,
the run succeeds and returns exactly the cookies whose count of
target-date records is maximal — without duplicates, sorted ascending,
all ties included. -/
theorem claim1_theorem (filename hd : Str) (body : List Str) (t : Str)
    (hfn : filename ≠ [])
    (hhd : isValidHeader hd = true)
    (hwf : wellFormedBody body)
    (hdate : validateDate t = .ok ())
    (hsorted : (rowsOf body).Pairwise (fun a b => strLe (dateOf a) (dateOf b) = true))
    (hfirst : ∃ e ∈ rowsOf body, strLe (dateOf e) t = true) :
    ∃ winners, findMostActiveCookies filename (hd :: body) t = .ok winners ∧
      winners.Pairwise (fun a b => strLe a b = true) ∧ winners.Nodup ∧
      ∀ c, c ∈ winners ↔ (1 ≤ matchCount t (rowsOf body) c ∧
        ∀ c2, matchCount t (rowsOf body) c2 ≤ matchCount t (rowsOf body) c) := by
  have hpos := keptRows_pos hsorted hfirst
  refine ⟨_, find_wf hfn hhd hwf hdate hpos, pickWinners_sorted _,
    pickWinners_nodup (tally_keys_nodup t _), fun c => ?_⟩
  rw [pickWinners_mem t (keptRows t (rowsOf body)) c]
  simp only [matchCount_keptRows hsorted]

/-- C1 fails as stated: this input is well formed, its dates are
non-decreasing and the target date is valid, yet the code returns an error
(the single record parses but is past the target, so the early stop fires
with zero entries processed and the run fails) instead of a result list. -/
theorem claim1_counterexample :
    validateDate ("2018-12-09".toList) = .ok () ∧
    isValidHeader headerLiteral = true ∧
    wellFormedBody ["B,2019-01-01T00:00:00+00:00".toList] ∧
    (rowsOf ["B,2019-01-01T00:00:00+00:00".toList]).Pairwise
      (fun a b => strLe (dateOf a) (dateOf b) = true) ∧
    findMostActiveCookies ("log.csv".toList)
      [headerLiteral, "B,2019-01-01T00:00:00+00:00".toList] ("2018-12-09".toList) =
      .error (.streamFailed .noValidEntries) :=
  ⟨by rfl, by decide, by decide, by decide, by rfl⟩

theorem claim1_witness : ∃ winners,
    findMostActiveCookies ("log.csv".toList)
      [headerLiteral, "A,2018-12-09T14:19:00+00:00".toList,
        "B,2018-12-09T10:13:00+00:00".toList, "A,2018-12-10T01:00:00+00:00".toList]
      ("2018-12-09".toList) = .ok winners ∧ winners.Nodup := by
  obtain ⟨w, hw, hsort, hnd, hmem⟩ := claim1_theorem ("log.csv".toList) headerLiteral
    ["A,2018-12-09T14:19:00+00:00".toList, "B,2018-12-09T10:13:00+00:00".toList,
      "A,2018-12-10T01:00:00+00:00".toList]
    ("2018-12-09".toList) (by decide) (by decide) (by decide) (by rfl) (by decide) (by decide)
  exact ⟨w, hw, hnd⟩

/-- C2 (amended): with a valid header and well-formed data lines, the run
fails with the empty-input error exactly when no data record is processed
before consumption stops — the file is header-only, or its first data
record is already past the target date (not merely when nothing parsed). -/
theorem claim2_theorem (hd : Str) (body : List Str) (t : Str)
    (hhd : isValidHeader hd = true) (hwf : wellFormedBody body) :
    (streamFile (processLogEntry t) (hd :: body)).err = some .noValidEntries ↔
      ∀ e ∈ (rowsOf body).take 1, strLt t (dateOf e) = true := by
  rw [streamFile_wf hhd hwf, ← keptRows_len_zero_iff t (rowsOf body)]
  by_cases h0 : (keptRows t (rowsOf body)).length = 0
  · simp [h0]
  · simp [h0]

/-- C2 fails as stated: here one data record parses successfully, yet the
run still fails with the empty-input error, because the record is past the
target date and the loop breaks before counting it as processed. -/
theorem claim2_counterexample :
    (parseLine (trimSpace ("B,2019-01-01T00:00:00+00:00".toList))).isOk = true ∧
    (streamFile (processLogEntry ("2018-12-09".toList))
      [headerLiteral, "B,2019-01-01T00:00:00+00:00".toList]).err =
      some .noValidEntries :=
  ⟨by rfl, by rfl⟩

theorem claim2_witness :
    (streamFile (processLogEntry ("2018-12-09".toList)) [headerLiteral]).err =
      some .noValidEntries :=
  (claim2_theorem headerLiteral [] ("2018-12-09".toList) (by decide) (by decide)).2
    (by decide)

/-- C3 (amended): on well-formed input with at least one data row, none of
whose rows matches the target date, the run returns an empty list and no
error provided the first data row is not already past the target date. -/
theorem claim3_theorem (filename hd : Str) (body : List Str) (t : Str)
    (hfn : filename ≠ []) (hhd : isValidHeader hd = true) (hwf : wellFormedBody body)
    (hdate : validateDate t = .ok ())
    (hnomatch : ∀ e ∈ rowsOf body, dateOf e ≠ t)
    (hfirst : ∃ e ∈ (rowsOf body).take 1, strLe (dateOf e) t = true) :
    findMostActiveCookies filename (hd :: body) t = .ok [] := by
  have hpos : 1 ≤ (keptRows t (rowsOf body)).length := by
    obtain ⟨e, he, hle⟩ := hfirst
    cases hrows : rowsOf body with
    | nil =>
      rw [hrows] at he
      simp at he
    | cons r rs =>
      rw [hrows] at he
      have her : e = r := by simpa using he
      subst her
      rw [keptRows, List.takeWhile_cons,
        if_pos (show (!strLt t (dateOf e)) = true from hle)]
      simp
  rw [find_wf hfn hhd hwf hdate hpos]
  have hkept : ∀ e ∈ keptRows t (rowsOf body), dateOf e ≠ t := fun e he =>
    hnomatch e ((List.takeWhile_sublist _).subset he)
  rw [foldl_tallyStep_no_match [] hkept]
  rfl

/-- C3 fails as stated: a well-formed non-header-only input with no row
matching the target date, where the code nevertheless reports an error,
because the only row is past the target date. -/
theorem claim3_counterexample :
    wellFormedBody ["C,2019-06-01T00:00:00+00:00".toList] ∧
    (∀ e ∈ rowsOf ["C,2019-06-01T00:00:00+00:00".toList],
      dateOf e ≠ ("2018-12-09".toList)) ∧
    findMostActiveCookies ("log.csv".toList)
      [headerLiteral, "C,2019-06-01T00:00:00+00:00".toList] ("2018-12-09".toList) =
      .error (.streamFailed .noValidEntries) :=
  ⟨by decide, by decide, by rfl⟩

theorem claim3_witness :
    findMostActiveCookies ("log.csv".toList)
      [headerLiteral, "A,2018-12-08T09:30:00+00:00".toList] ("2018-12-09".toList) =
      .ok [] :=
  claim3_theorem ("log.csv".toList) headerLiteral ["A,2018-12-08T09:30:00+00:00".toList]
    ("2018-12-09".toList) (by decide) (by decide) (by decide) (by rfl) (by decide) (by decide)

/-- C4: on well-formed input containing a data row past the target date,
appending any lines after the end does not change the result, and a
surfaced stream error is never the past-target-date sentinel. -/
theorem claim4_theorem (filename hd : Str) (body extra : List Str) (t : Str)
    (_hhd : isValidHeader hd = true) (hwf : wellFormedBody body)
    (hex : ∃ e ∈ rowsOf body, strLt t (dateOf e) = true) :
    (findMostActiveCookies filename (hd :: (body ++ extra)) t =
      findMostActiveCookies filename (hd :: body) t) ∧
    (∀ (lines2 : List Str) (e : GoError),
      (streamFile (processLogEntry t) lines2).err = some e →
        e.isPastTargetDate = false) := by
  have hsf : streamFile (processLogEntry t) (hd :: (body ++ extra)) =
      streamFile (processLogEntry t) (hd :: body) := by
    simp only [streamFile]
    rw [streamLoop_append_past body extra t 1 0 [] hwf hex]
  refine ⟨?_, fun lines2 e he => streamFile_err_not_past _ lines2 he⟩
  unfold findMostActiveCookies
  rw [hsf]

theorem claim4_witness :
    findMostActiveCookies ("log.csv".toList)
      (headerLiteral :: (["A,2018-12-08T09:30:00+00:00".toList,
        "B,2019-01-01T00:00:00+00:00".toList] ++ ["not-even-csv".toList]))
      ("2018-12-09".toList) =
    findMostActiveCookies ("log.csv".toList)
      (headerLiteral :: ["A,2018-12-08T09:30:00+00:00".toList,
        "B,2019-01-01T00:00:00+00:00".toList]) ("2018-12-09".toList) :=
  (claim4_theorem ("log.csv".toList) headerLiteral
    ["A,2018-12-08T09:30:00+00:00".toList, "B,2019-01-01T00:00:00+00:00".toList]
    ["not-even-csv".toList] ("2018-12-09".toList) (by decide) (by decide) (by decide)).1

/-- C8 (amended): a non-blank data line that fails to parse aborts the run
with a format error carrying its 1-based physical line number (header and
blank lines counted), provided every earlier data line is blank or parses
to a record not past the target date (so the failing line is reached). -/
theorem claim8_theorem (filename hd : Str) (pre : List Str) (bad : Str) (post : List Str)
    (t : Str) (hfn : filename ≠ []) (hdate : validateDate t = .ok ())
    (hhd : isValidHeader hd = true)
    (hpre : ∀ l ∈ pre, trimSpace l = [] ∨ ∃ ent, parseLine (trimSpace l) = .ok ent ∧
        strLt t (dateOf ent) = false)
    (hnb : trimSpace bad ≠ []) (err : GoError)
    (hperr : parseLine (trimSpace bad) = .error err) :
    findMostActiveCookies filename (hd :: (pre ++ bad :: post)) t =
      .error (.streamFailed (.lineParseError (pre.length + 2) err)) := by
  have herr : (streamLoop (processLogEntry t) (pre ++ bad :: post) 1 0 []).err =
      some (.lineParseError (pre.length + 2) err) := by
    rw [streamLoop_parse_error pre bad post t 1 0 [] hpre hnb hperr,
      show 1 + pre.length + 1 = pre.length + 2 from by omega]
  have hnp : (GoError.lineParseError (pre.length + 2) err).isPastTargetDate = false := by
    simp only [GoError.isPastTargetDate]
    exact parseLine_error_not_past hperr
  unfold findMostActiveCookies
  rw [if_neg hfn, hdate]
  simp only [streamFile]
  rw [if_pos hhd]
  simp only [herr, hnp]
  simp

/-- C8 fails as stated: this input contains a non-blank line that fails to
parse (line 3), yet the run does not abort with a format error naming it —
the early stop on the preceding past-target row ends consumption first and
the run fails with the empty-input error instead. -/
theorem claim8_counterexample :
    (trimSpace ("garbage-line".toList) ≠ []) ∧
    (parseLine (trimSpace ("garbage-line".toList))).isOk = false ∧
    findMostActiveCookies ("log.csv".toList)
      [headerLiteral, "A,2019-01-01T00:00:00+00:00".toList, "garbage-line".toList]
      ("2018-12-09".toList) = .error (.streamFailed .noValidEntries) :=
  ⟨by decide, by rfl, by rfl⟩

theorem claim8_witness :
    findMostActiveCookies ("log.csv".toList)
      [headerLiteral, "A,2018-12-09T14:19:00+00:00".toList, "   ".toList,
        "garbage-line".toList] ("2018-12-09".toList) =
      .error (.streamFailed (.lineParseError 4
        (.invalidCSVFormat 1))) := by
  have hpre : ∀ l ∈ ["A,2018-12-09T14:19:00+00:00".toList, ("   ").toList],
      trimSpace l = [] ∨ ∃ ent, parseLine (trimSpace l) = .ok ent ∧
        strLt ("2018-12-09".toList) (dateOf ent) = false := by
    intro l hl
    rcases List.mem_cons.1 hl with rfl | hl
    · exact Or.inr ⟨⟨"A".toList, "2018-12-09T14:19:00+00:00".toList⟩, by rfl, by rfl⟩
    rcases List.mem_cons.1 hl with rfl | hl
    · exact Or.inl (by decide)
    · exact absurd hl (List.not_mem_nil l)
  exact claim8_theorem ("log.csv".toList) headerLiteral
    ["A,2018-12-09T14:19:00+00:00".toList, "   ".toList] ("garbage-line".toList) []
    ("2018-12-09".toList) (by decide) (by rfl) (by decide) hpre (by decide)
    (.invalidCSVFormat 1) (by rfl)

/-- C9: the selection-and-sorting stage of FindMostActiveCookies is
invariant under permutation of the tally map's entries — the Go map's
iteration order cannot influence the output, so two runs on identical
input and target date print identical results. -/
theorem claim9_theorem (m m2 : CookieCounts) (hperm : m.Perm m2) :
    pickWinners m = pickWinners m2 := by
  haveI : LeftCommutative (fun (p : Str × Nat) (acc : Nat) => max p.2 acc) :=
    ⟨fun a b c => by omega⟩
  have hmax : maxTally m = maxTally m2 := by
    unfold maxTally
    exact List.Perm.foldr_eq hperm 0
  by_cases he : m = []
  · subst he
    rw [List.Perm.eq_nil hperm.symm]
  · have he2 : m2 ≠ [] := fun h => he (List.Perm.eq_nil (h ▸ hperm))
    unfold pickWinners
    rw [if_neg (by simp [he]), if_neg (by simp [he2]),
      selectMax_zero, selectMax_zero, hmax]
    exact sortStrings_eq_of_perm ((hperm.filter _).map _)

theorem claim9_witness :
    pickWinners [("a".toList, 1), ("b".toList, 2)] =
      pickWinners [("b".toList, 2), ("a".toList, 1)] :=
  claim9_theorem [("a".toList, 1), ("b".toList, 2)] [("b".toList, 2), ("a".toList, 1)]
    (List.Perm.swap ("b".toList, 2) ("a".toList, 1) [])

end MostActiveCookie
